import Mathlib

/-!
# Verification of `autodiff/symbolic.py` (jlowin/pyautodiff)

Shallow embedding of the tracing / compilation-caching machinery of
`src/autodiff/symbolic.py` and proofs about it.

The repository's own helper modules `autodiff.context` (the instrumented
execution engine `Context`), `autodiff.utils` (`orderedcallargs`) and the
external libraries (`theano`, `numpy`) are not included under `src/`; they
are modelled from the spec's collaborator contracts (section 6 of the spec)
and are marked `Modelled from the spec:` in their doc comments.

Machine-level conventions of the embedding:
* Python object identity (`id(obj)`) is modelled by `PyId`: plain `int`
  objects in the CPython interning range `-5 .. 256` share one identity per
  value (`PyId.smallInt`); every other object carries a heap address
  (`PyId.addr`).  A monotone `Nat` counter stands for the allocator.
* Theano graph variables are modelled by `Node`; a compiled theano function
  is an `Artifact` whose inputs substitute values for the traced argument
  nodes (theano `givens`).
* Python exceptions are modelled by `Except`; the error payloads carry
  exactly the data interpolated into the source's message strings
  (in particular the *printed* indices).
-/

namespace PyAutodiff

/-- Python object identity.  CPython interns small `int` objects
(`-5 <= n <= 256`): two plain ints of equal small value are the *same*
object.  All other objects have a fresh heap address. -/
inductive PyId where
  | smallInt : Int → PyId
  | addr : Nat → PyId
deriving DecidableEq

/-- Lower bound of CPython's small-integer interning range. -/
def smallIntLo : Int := -5

/-- Upper bound of CPython's small-integer interning range. -/
def smallIntHi : Int := 256

/-- Python runtime values, as far as the traced fragment needs them:
plain ints, boxed numpy ints (`np.int_`), strings, opaque objects and the
three container types rejected by `Symbolic.trace`'s `check`.  The first
`Nat` field of each constructor is the heap address of the object. -/
inductive PyVal where
  | intV : Nat → Int → PyVal
  | npint : Nat → Int → PyVal
  | strV : Nat → String → PyVal
  | objV : Nat → PyVal
  | listV : Nat → List PyVal → PyVal
  | tupleV : Nat → List PyVal → PyVal
  | dictV : Nat → List (String × PyVal) → PyVal

/-- The identity (`id(obj)`) of a value: small plain ints are interned,
everything else is identified by its heap address. -/
def PyVal.pyId : PyVal → PyId
  | .intV a n => if smallIntLo ≤ n ∧ n ≤ smallIntHi then .smallInt n else .addr a
  | .npint a _ => .addr a
  | .strV a _ => .addr a
  | .objV a => .addr a
  | .listV a _ => .addr a
  | .tupleV a _ => .addr a
  | .dictV a _ => .addr a

/-- Numeric reading of a value (numpy/theano coerce both plain and boxed
ints to the same number); non-numeric values read as `0`, they are never
fed to the numeric engine on the paths the theorems talk about. -/
def PyVal.toInt : PyVal → Int
  | .intV _ n => n
  | .npint _ n => n
  | _ => 0

/-- Whether the instrumented execution engine shadows this value with a
graph node (the engine tracks numeric scalars only). -/
def PyVal.tracked : PyVal → Bool
  | .intV _ _ => true
  | .npint _ _ => true
  | _ => false

/-- Whether `check` classifies the value as a container
(`isinstance(i, (list, tuple, dict))`). -/
def PyVal.isContainer : PyVal → Bool
  | .listV _ _ => true
  | .tupleV _ _ => true
  | .dictV _ _ => true
  | _ => false

/-- Theano graph nodes: compiled-graph inputs (identified by a fresh
number), constants, arithmetic operations, and the opaque gradient node
produced by the differentiation primitive `tt.grad`. -/
inductive Node where
  | inp : Nat → Node
  | constN : Int → Node
  | addN : Node → Node → Node
  | mulN : Node → Node → Node
  | gradN : Node → Node → Node
deriving DecidableEq

/-- Evaluate a graph node under a partial assignment of the graph inputs.
The gradient node is opaque (its numeric semantics belong to theano). -/
def evalNode (r : Nat → Option Int) : Node → Option Int
  | .inp k => r k
  | .constN n => some n
  | .addN a b =>
    match evalNode r a, evalNode r b with
    | some x, some y => some (x + y)
    | _, _ => none
  | .mulN a b =>
    match evalNode r a, evalNode r b with
    | some x, some y => some (x * y)
    | _, _ => none
  | .gradN _ _ => none

/-- References a function body can make to its bound arguments: a declared
parameter by name, an element of the variadic tuple by position, or a
keyword-bag entry by key. -/
inductive Ref where
  | pos : String → Ref
  | varItem : Nat → Ref
  | kw : String → Ref
deriving DecidableEq

/-- Pure numeric Python function bodies, as traced by the engine: argument
references, int and str literals, addition and multiplication. -/
inductive Expr where
  | ref : Ref → Expr
  | litInt : Int → Expr
  | litStr : String → Expr
  | add : Expr → Expr → Expr
  | mul : Expr → Expr → Expr
deriving DecidableEq

/-- The result of `inspect.getargspec`: declared positional parameter
names, the variadic parameter name, the keyword-bag parameter name, and
the default values (aligned to the last declared parameters). -/
structure ArgSpec where
  args : List String
  varargs : Option String
  keywords : Option String
  defaults : List PyVal

/-- A Python function: its argspec and a pure body.  `body` lists the
returned value expressions; `retTuple` records whether the source returns
a tuple expression (`return x, y` or `return (x,)`) as opposed to a single
value. -/
structure PyFn where
  argspec : ArgSpec
  body : List Expr
  retTuple : Bool

/-- A value bound to one name by the signature binder: a plain parameter
value, the variadic tuple, or the keyword bag. -/
inductive BoundVal where
  | single : PyVal → BoundVal
  | tupleB : List PyVal → BoundVal
  | dictB : List (String × PyVal) → BoundVal

/-- Ordered string-keyed association lookup (Python `dict` access). -/
def lookupStr {α : Type} : List (String × α) → String → Option α
  | [], _ => none
  | p :: rest, k => if p.1 = k then some p.2 else lookupStr rest k

/-- The default value for declared parameter slot `i`, aligning
`defaults` to the last declared parameters as Python does. -/
def defaultFor (sp : ArgSpec) (i : Nat) : Option PyVal :=
  if sp.args.length - sp.defaults.length ≤ i then
    sp.defaults[i - (sp.args.length - sp.defaults.length)]?
  else none

/-- The value bound to declared parameter slot `i` (named `name`): the
positional argument if supplied, else the keyword argument, else the
declared default.  (A call missing a required argument is outside the
theorems' hypotheses; the fallback value is arbitrary.) -/
def bindDeclared (sp : ArgSpec) (args : List PyVal) (kwargs : List (String × PyVal))
    (i : Nat) (name : String) : PyVal :=
  match args[i]? with
  | some v => v
  | none =>
    match lookupStr kwargs name with
    | some v => v
    | none => (defaultFor sp i).getD (.objV 0)

/-- Modelled from the spec: `orderedcallargs` (`autodiff.utils`, not under
`src/`).  Spec section 6: an ordered name-to-value mapping covering every
declared parameter, then the variadic tuple (if the function declares one),
then the keyword bag (if the function declares one). -/
def orderedcallargs (sp : ArgSpec) (args : List PyVal) (kwargs : List (String × PyVal)) :
    List (String × BoundVal) :=
  (sp.args.enum.map fun p => (p.2, BoundVal.single (bindDeclared sp args kwargs p.1 p.2)))
    ++ (match sp.varargs with
        | some vn => [(vn, BoundVal.tupleB (args.drop sp.args.length))]
        | none => [])
    ++ (match sp.keywords with
        | some kn => [(kn, BoundVal.dictB (kwargs.filter fun q => !sp.args.contains q.1))]
        | none => [])

/-- Lookup in the ordered callargs mapping. -/
def lookupB : List (String × BoundVal) → String → Option BoundVal
  | [], _ => none
  | p :: rest, k => if p.1 = k then some p.2 else lookupB rest k

/-- All bound argument values in binder order: declared parameter values,
then the elements of the variadic tuple, then the keyword-bag values. -/
def boundValsList (ca : List (String × BoundVal)) : List PyVal :=
  ca.flatMap fun p =>
    match p.2 with
    | .single v => [v]
    | .tupleB vs => vs
    | .dictB kvs => kvs.map Prod.snd

/-- Errors raised by `Symbolic.trace`.  Each constructor carries exactly
the data interpolated into the corresponding raised message:
* `containerArg name v`: `TypeError` from `check`, naming the offending
  argument (source lines 74-77);
* `untraceableVarItem i name`: `KeyError` for item `i` of the variadic
  argument; the carried `i` is the number printed in the message, which is
  the *0-based* `enumerate` index (source lines 111-113);
* `untraceableArg name`: `KeyError` naming the argument (lines 123-125 and
  134-136);
* `untraceableResult i`: `KeyError` for a result; the carried `i` is the
  number printed in the message, which is `index + 1` (source lines
  146-148, message says `(indexed from 1)`). -/
inductive TraceErr where
  | containerArg : String → PyVal → TraceErr
  | untraceableVarItem : Nat → String → TraceErr
  | untraceableArg : String → TraceErr
  | untraceableResult : Nat → TraceErr

/-- Source lines 61-79, the `check` helper of `Symbolic.trace`: a plain
int in the interning range is replaced by a fresh boxed `np.int_` object
(the counter argument is the allocator); a list, tuple or dict raises a
`TypeError` naming the argument; anything else passes through. -/
def check (fresh : Nat) (name : String) (i : PyVal) : Except TraceErr (PyVal × Nat) :=
  match i with
  | .intV a n =>
    if smallIntLo ≤ n ∧ n ≤ smallIntHi then .ok (.npint fresh n, fresh + 1)
    else .ok (.intV a n, fresh)
  | .listV a l => .error (.containerArg name (.listV a l))
  | .tupleV a l => .error (.containerArg name (.tupleV a l))
  | .dictV a l => .error (.containerArg name (.dictV a l))
  | v => .ok (v, fresh)

/-- Run `check` over a sequence of (argument name, value) pairs in order,
threading the allocator, stopping at the first failure. -/
def checkList (fresh : Nat) : List (String × PyVal) → Except TraceErr (List PyVal × Nat)
  | [] => .ok ([], fresh)
  | (n, v) :: rest =>
    match check fresh n v with
    | .error e => .error e
    | .ok (v2, f2) =>
      match checkList f2 rest with
      | .error e => .error e
      | .ok (vs, f3) => .ok (v2 :: vs, f3)

/-- The (name, value) pairs `Symbolic.trace` checks, in source order
(lines 81-85): declared positional slots zipped with the positional
arguments, then the extra positional arguments under the variadic
parameter's name, then the keyword arguments. -/
def checkSeq (sp : ArgSpec) (args : List PyVal) (kwargs : List (String × PyVal)) :
    List (String × PyVal) :=
  sp.args.zip args
    ++ (args.drop sp.args.length).map (fun a => (sp.varargs.getD "None", a))
    ++ kwargs

/-- Source lines 81-85: apply `check` to every positional argument (under
its declared name), every extra positional argument (under the variadic
parameter's name) and every keyword argument, in that order.  Returns the
checked positional list, the checked keyword mapping and the advanced
allocator. -/
def runChecks (sp : ArgSpec) (args : List PyVal) (kwargs : List (String × PyVal))
    (fresh : Nat) :
    Except TraceErr (List PyVal × List (String × PyVal) × Nat) :=
  match checkList fresh (sp.args.zip args) with
  | .error e => .error e
  | .ok (tmp, f1) =>
    match checkList f1 ((args.drop sp.args.length).map fun a => (sp.varargs.getD "None", a)) with
    | .error e => .error e
    | .ok (extra, f2) =>
      match checkList f2 kwargs with
      | .error e => .error e
      | .ok (kvals, f3) => .ok (tmp ++ extra, (kwargs.map Prod.fst).zip kvals, f3)

/-- Lookup in the engine's identity-to-node map (a Python dict keyed by
`id(obj)`, insertion ordered). -/
def svLookup : List (PyId × Node) → PyId → Option Node
  | [], _ => none
  | p :: rest, k => if p.1 = k then some p.2 else svLookup rest k

/-- Record a correspondence in the identity map, keeping the existing
entry if the identity is already present (a live CPython object's id is
unique, so an existing entry is never displaced). -/
def svInsert (sv : List (PyId × Node)) (k : PyId) (n : Node) : List (PyId × Node) :=
  match svLookup sv k with
  | some _ => sv
  | none => sv ++ [(k, n)]

/-- Modelled from the spec: the instrumented engine gives every tracked
(numeric) argument object a graph input node when execution starts; an
identity already shadowed is not shadowed again. -/
def seedVal (st : List (PyId × Node) × Nat) (v : PyVal) : List (PyId × Node) × Nat :=
  if v.tracked then
    match svLookup st.1 v.pyId with
    | some _ => st
    | none => (st.1 ++ [(v.pyId, .inp st.2)], st.2 + 1)
  else st

/-- Seed the identity map with input nodes for all bound argument values,
in binder order. -/
def seedAll (ca : List (String × BoundVal)) (sv : List (PyId × Node)) (fresh : Nat) :
    List (PyId × Node) × Nat :=
  (boundValsList ca).foldl seedVal (sv, fresh)

/-- The execution environment of the traced function body: its bound
callargs and its argspec. -/
structure Env where
  ca : List (String × BoundVal)
  sp : ArgSpec

/-- Resolve an argument reference to the bound runtime value. -/
def Env.lookupRef (e : Env) : Ref → PyVal
  | .pos name =>
    match lookupB e.ca name with
    | some (.single v) => v
    | _ => .objV 0
  | .varItem i =>
    match e.sp.varargs with
    | some vn =>
      match lookupB e.ca vn with
      | some (.tupleB vs) => vs.getD i (.objV 0)
      | _ => .objV 0
    | none => .objV 0
  | .kw name =>
    match e.sp.keywords with
    | some kn =>
      match lookupB e.ca kn with
      | some (.dictB kvs) => (lookupStr kvs name).getD (.objV 0)
      | _ => .objV 0
    | none => .objV 0

/-- Modelled from the spec: one step of the instrumented execution.  Every
value produced by a graph-aware operation is shadowed by a node recorded in
the identity map; a fresh object is allocated for every literal and every
arithmetic result; an operation on an unshadowed (non-numeric) operand
produces an unshadowed result.  Returns the produced value, the extended
identity map and the advanced allocator. -/
def evalExpr (env : Env) : Expr → List (PyId × Node) → Nat →
    PyVal × List (PyId × Node) × Nat
  | .ref r, sv, f => (env.lookupRef r, sv, f)
  | .litInt n, sv, f =>
    let v : PyVal := .intV f n
    (v, svInsert sv v.pyId (.constN n), f + 1)
  | .litStr s, sv, f => (.strV f s, sv, f + 1)
  | .add a b, sv, f =>
    let pa := evalExpr env a sv f
    let pb := evalExpr env b pa.2.1 pa.2.2
    let v : PyVal := .npint pb.2.2 (pa.1.toInt + pb.1.toInt)
    (match svLookup pb.2.1 pa.1.pyId, svLookup pb.2.1 pb.1.pyId with
     | some na, some nb => (v, svInsert pb.2.1 v.pyId (.addN na nb), pb.2.2 + 1)
     | _, _ => (v, pb.2.1, pb.2.2 + 1))
  | .mul a b, sv, f =>
    let pa := evalExpr env a sv f
    let pb := evalExpr env b pa.2.1 pa.2.2
    let v : PyVal := .npint pb.2.2 (pa.1.toInt * pb.1.toInt)
    (match svLookup pb.2.1 pa.1.pyId, svLookup pb.2.1 pb.1.pyId with
     | some na, some nb => (v, svInsert pb.2.1 v.pyId (.mulN na nb), pb.2.2 + 1)
     | _, _ => (v, pb.2.1, pb.2.2 + 1))

/-- Evaluate the body expressions left to right. -/
def evalBody (env : Env) : List Expr → List (PyId × Node) → Nat →
    List PyVal × List (PyId × Node) × Nat
  | [], sv, f => ([], sv, f)
  | e :: rest, sv, f =>
    let p := evalExpr env e sv f
    let q := evalBody env rest p.2.1 p.2.2
    (p.1 :: q.1, q.2.1, q.2.2)

/-- Modelled from the spec: `Context.call` (`autodiff.context`, not under
`src/`).  Spec section 6: `run(fn, args, kwargs) -> (result,
identity_to_node_map)`; the map covers every value created by graph-aware
operations during the single execution.  Returns the result *object* (a
tuple object when the function returns a tuple), the identity map, and the
advanced allocator. -/
def contextCall (pf : PyFn) (args : List PyVal) (kwargs : List (String × PyVal))
    (fresh : Nat) : PyVal × List (PyId × Node) × Nat :=
  let ca := orderedcallargs pf.argspec args kwargs
  let s0 := seedAll ca [] fresh
  let p := evalBody { ca := ca, sp := pf.argspec } pf.body s0.1 s0.2
  if pf.retTuple then (.tupleV p.2.2 p.1, p.2.1, p.2.2 + 1)
  else (p.1.headD (.objV 0), p.2.1, p.2.2)

/-- An entry of `s_args`: one graph node for an ordinary argument, or the
tuple of nodes collected for the variadic parameter. -/
inductive SArg where
  | one : Node → SArg
  | tup : List Node → SArg
deriving DecidableEq

/-- Lookup in `s_args` (ordered dict keyed by argument name). -/
def saLookup : List (String × SArg) → String → Option SArg
  | [], _ => none
  | p :: rest, k => if p.1 = k then some p.2 else saLookup rest k

/-- Assignment into `s_args`: overwrites in place (Python dict assignment
keeps the original insertion position), appends otherwise. -/
def saInsert : List (String × SArg) → String → SArg → List (String × SArg)
  | [], k, v => [(k, v)]
  | p :: rest, k, v => if p.1 = k then (k, v) :: rest else p :: saInsert rest k v

/-- Assignment into `s_results` (ordered dict keyed by identity). -/
def srInsert : List (PyId × Node) → PyId → Node → List (PyId × Node)
  | [], k, v => [(k, v)]
  | p :: rest, k, v => if p.1 = k then (k, v) :: rest else p :: srInsert rest k v

/-- A compiled theano artifact (spec section 6 collaborator contract):
`inputs` lists, in declaration order, the traced argument node each input
substitutes (the theano `given`), its declared name, and its default;
`outputs` are the result nodes; `singleOut` records whether the single
output was unwrapped from its list (source lines 188-190). -/
structure Artifact where
  inputs : List (Node × String × Option Int)
  outputs : List Node
  singleOut : Bool
deriving DecidableEq

/-- Lookup in the artifact cache (`self._cache`, keyed by the number of
variadic arguments supplied). -/
def cacheLookup : List (Nat × Artifact) → Nat → Option Artifact
  | [], _ => none
  | p :: rest, k => if p.1 = k then some p.2 else cacheLookup rest k

/-- Assignment into the artifact cache (dict assignment). -/
def cacheInsert : List (Nat × Artifact) → Nat → Artifact → List (Nat × Artifact)
  | [], k, v => [(k, v)]
  | p :: rest, k, v => if p.1 = k then (k, v) :: rest else p :: cacheInsert rest k v

/-- The mutable state of a `Symbolic`/`Function` wrapper: the three
symbolic dictionaries, the artifact cache, the allocator, and a ghost
counter of instrumented executions (`Context` calls) used to observe
whether a call retraced. -/
structure SymbolicState where
  s_vars : List (PyId × Node)
  s_args : List (String × SArg)
  s_results : List (PyId × Node)
  cache : List (Nat × Artifact)
  fresh : Nat
  traceCount : Nat
deriving DecidableEq

/-- Source lines 104-115, the variadic branch of the `s_args` loop:
translate the bound tuple element by element; on a missing identity raise
a `KeyError` whose message prints the `enumerate` index (0-based) and the
variadic parameter's name.  Returns the nodes collected before the
failure. -/
def collectVar (sv : List (PyId × Node)) (name : String) :
    Nat → List PyVal → List Node × Option TraceErr
  | _, [] => ([], none)
  | i, a :: rest =>
    match svLookup sv a.pyId with
    | none => ([], some (.untraceableVarItem i name))
    | some nd =>
      let p := collectVar sv name (i + 1) rest
      (nd :: p.1, p.2)

/-- Source lines 117-127, the keyword-bag branch of the `s_args` loop:
translate the bound mapping key by key; a missing identity raises a
`KeyError` naming the keyword.  Returns the pairs collected before the
failure. -/
def collectKw (sv : List (PyId × Node)) :
    List (String × PyVal) → List (String × Node) × Option TraceErr
  | [] => ([], none)
  | (n, a) :: rest =>
    match svLookup sv a.pyId with
    | none => ([], some (.untraceableArg n))
    | some nd =>
      let p := collectKw sv rest
      ((n, nd) :: p.1, p.2)

/-- Coerce a bound value to the variadic tuple (total helper; the variadic
entry is always a `tupleB` for a well-formed argspec). -/
def asTupleB : BoundVal → List PyVal
  | .tupleB vs => vs
  | .single v => [v]
  | .dictB _ => []

/-- Coerce a bound value to the keyword bag (total helper). -/
def asDictB : BoundVal → List (String × PyVal)
  | .dictB kvs => kvs
  | _ => []

/-- Coerce a bound value to a plain value (total helper). -/
def asSingleB : BoundVal → PyVal
  | .single v => v
  | _ => .objV 0

/-- Source lines 100-138: walk the binder's callargs in order and populate
`s_args`.  The variadic entry becomes a tuple of nodes, the keyword bag is
expanded key by key, every other entry becomes one named node.  On the
first missing identity the loop stops with the corresponding `KeyError`,
keeping the entries (and partial variadic tuple) populated so far. -/
def buildSArgs (sp : ArgSpec) (sv : List (PyId × Node))
    (acc : List (String × SArg)) :
    List (String × BoundVal) → List (String × SArg) × Option TraceErr
  | [] => (acc, none)
  | (name, bv) :: rest =>
    if sp.varargs = some name then
      let p := collectVar sv name 0 (asTupleB bv)
      let acc2 := saInsert acc name (.tup p.1)
      match p.2 with
      | some e => (acc2, some e)
      | none => buildSArgs sp sv acc2 rest
    else if sp.keywords = some name then
      let p := collectKw sv (asDictB bv)
      let acc2 := p.1.foldl (fun a q => saInsert a q.1 (.one q.2)) acc
      match p.2 with
      | some e => (acc2, some e)
      | none => buildSArgs sp sv acc2 rest
    else
      match svLookup sv (asSingleB bv).pyId with
      | none => (acc, some (.untraceableArg name))
      | some nd => buildSArgs sp sv (saInsert acc name (.one nd)) rest

/-- Source lines 140-150: populate `s_results` from the (tuple-normalised)
result values, keyed by identity; a missing identity raises a `KeyError`
whose message prints `index + 1` (1-based). -/
def buildSResults (sv : List (PyId × Node)) (acc : List (PyId × Node)) :
    Nat → List PyVal → List (PyId × Node) × Option TraceErr
  | _, [] => (acc, none)
  | i, r :: rest =>
    match svLookup sv r.pyId with
    | none => (acc, some (.untraceableResult (i + 1)))
    | some nd => buildSResults sv (srInsert acc r.pyId nd) (i + 1) rest

/-- Tuple-normalise the traced result object (source lines 141-142:
`if not isinstance(results, tuple): results = [results]`). -/
def normResults : PyVal → List PyVal
  | .tupleV _ vs => vs
  | v => [v]

/-- Source lines 87-150, the part of `Symbolic.trace` after the argument
checks succeeded, taking the checked arguments and the advanced allocator:
clear the three symbolic dictionaries, run the function under the
instrumented engine, then rebuild `s_args` from the binder's callargs and
`s_results` from the returned values.  Errors carry the state as left
behind at the raise point. -/
def traceCore (pf : PyFn) (st : SymbolicState) (cargs : List PyVal)
    (ckwargs : List (String × PyVal)) (f1 : Nat) :
    Except (TraceErr × SymbolicState) SymbolicState :=
  let st1 : SymbolicState :=
    { st with s_vars := [], s_args := [], s_results := [],
              fresh := f1, traceCount := st.traceCount + 1 }
  let p := contextCall pf cargs ckwargs st1.fresh
  let st2 : SymbolicState := { st1 with s_vars := p.2.1, fresh := p.2.2 }
  let ca := orderedcallargs pf.argspec cargs ckwargs
  let q := buildSArgs pf.argspec p.2.1 [] ca
  let st3 : SymbolicState := { st2 with s_args := q.1 }
  match q.2 with
  | some e => .error (e, st3)
  | none =>
    let w := buildSResults p.2.1 [] 0 (normResults p.1)
    let st4 : SymbolicState := { st3 with s_results := w.1 }
    match w.2 with
    | some e => .error (e, st4)
    | none => .ok st4

/-- Source lines 37-150, `Symbolic.trace`: check the arguments (small ints
boxed, containers rejected — *before* anything else is touched), then run
`traceCore`.  A check failure raises before the dictionaries are cleared,
leaving the previous trace's contents in place (the carried state is the
caller's, unchanged). -/
def trace (pf : PyFn) (st : SymbolicState) (args : List PyVal)
    (kwargs : List (String × PyVal)) :
    Except (TraceErr × SymbolicState) SymbolicState :=
  match runChecks pf.argspec args kwargs st.fresh with
  | .error e => .error (e, st)
  | .ok (cargs, ckwargs, f1) => traceCore pf st cargs ckwargs f1

/-- The value an artifact hands back: theano unwraps a single declared
output (source lines 188-190), otherwise returns the tuple of outputs. -/
inductive PyReturn where
  | single : Int → PyReturn
  | tup : List Int → PyReturn
deriving DecidableEq

/-- Substitution lookup: the value assigned to a graph node by the call. -/
def naLookup : List (Node × Int) → Node → Option Int
  | [], _ => none
  | p :: rest, k => if p.1 = k then some p.2 else naLookup rest k

/-- Find an artifact input by its declared name (theano keyword-argument
binding). -/
def findInputByName : List (Node × String × Option Int) → String →
    Option (Node × String × Option Int)
  | [], _ => none
  | s :: rest, k => if s.2.1 = k then some s else findInputByName rest k

/-- Bind positional call values to the artifact's inputs in declaration
order. -/
def assignPos : List (Node × String × Option Int) → List Int → List (Node × Int)
  | _, [] => []
  | [], _ => []
  | s :: ss, v :: vs => (s.1, v) :: assignPos ss vs

/-- Evaluate a node under the `givens` substitution of a call: wherever
the substitution assigns a node, that value replaces the whole subgraph;
otherwise evaluation proceeds structurally. -/
def evalNodeG (s : Node → Option Int) : Node → Option Int
  | .inp k =>
    match s (.inp k) with
    | some v => some v
    | none => none
  | .constN n =>
    match s (.constN n) with
    | some v => some v
    | none => some n
  | .addN a b =>
    match s (.addN a b) with
    | some v => some v
    | none =>
      match evalNodeG s a, evalNodeG s b with
      | some x, some y => some (x + y)
      | _, _ => none
  | .mulN a b =>
    match s (.mulN a b) with
    | some v => some v
    | none =>
      match evalNodeG s a, evalNodeG s b with
      | some x, some y => some (x * y)
      | _, _ => none
  | .gradN a b =>
    match s (.gradN a b) with
    | some v => some v
    | none => none

/-- Evaluate all outputs; a single unresolved input fails the call. -/
def evalOuts (s : Node → Option Int) : List Node → Option (List Int)
  | [] => some []
  | nd :: rest =>
    match evalNodeG s nd, evalOuts s rest with
    | some v, some vs => some (v :: vs)
    | _, _ => none

/-- Modelled from the spec: invoking a compiled artifact
(`artifact(*positional, **keyword) -> output(s)`, spec section 6).
Positional values bind to the inputs in declaration order, keyword values
bind by input name, remaining inputs fall back to their defaults; an
output depending on an unbound input fails the call. -/
def artifactCall (a : Artifact) (pos : List Int) (kw : List (String × Int)) :
    Except String PyReturn :=
  let asg := assignPos a.inputs pos
      ++ kw.filterMap (fun q => (findInputByName a.inputs q.1).map fun s => (s.1, q.2))
      ++ a.inputs.filterMap (fun s => s.2.2.map fun d => (s.1, d))
  match evalOuts (naLookup asg) a.outputs with
  | some vals =>
    .ok (if a.singleOut then .single (vals.headD 0) else .tup vals)
  | none => .error "missing input"

/-- `len(callargs.get(argspec.varargs, ()))`: the number of variadic
arguments supplied by this call — the artifact cache key (source lines
199 and 211). -/
def varargsCount (sp : ArgSpec) (ca : List (String × BoundVal)) : Nat :=
  match sp.varargs with
  | some vn =>
    match lookupB ca vn with
    | some (.tupleB vs) => vs.length
    | _ => 0
  | none => 0

/-- `callargs.get(argspec.varargs, ())`: the variadic values of a call. -/
def varargsVals (sp : ArgSpec) (ca : List (String × BoundVal)) : List PyVal :=
  match sp.varargs with
  | some vn =>
    match lookupB ca vn with
    | some (.tupleB vs) => vs
    | _ => []
  | none => []

/-- `callargs.get(argspec.keywords, {})`: the keyword bag of a call. -/
def bagVals (sp : ArgSpec) (ca : List (String × BoundVal)) : List (String × PyVal) :=
  match sp.keywords with
  | some kn =>
    match lookupB ca kn with
    | some (.dictB kvs) => kvs
    | _ => []
  | none => []

/-- Source lines 155-201, `Function._compile_function`: trace the call,
build one `given` input per traced argument node (one per element for the
variadic tuple, named `name_i`), resolve defaults (the last declared slot
loses its default when a variadic parameter exists, lines 176-177),
declare the traced results as outputs (a single output is unwrapped), and
store the artifact in the cache keyed by the call's variadic count. -/
def compileFunction (pf : PyFn) (st : SymbolicState) (args : List PyVal)
    (kwargs : List (String × PyVal)) :
    Except (TraceErr × SymbolicState) (Artifact × SymbolicState) :=
  let sp := pf.argspec
  let ca := orderedcallargs sp args kwargs
  match trace pf st args kwargs with
  | .error e => .error e
  | .ok st1 =>
    let nd := sp.defaults.length
    let defNames :=
      if sp.varargs.isSome then (sp.args.drop (sp.args.length - nd)).dropLast
      else sp.args.drop (sp.args.length - nd)
    let defaults := defNames.zip (sp.defaults.map PyVal.toInt)
    let inputs :=
      (st1.s_args.filterMap fun p =>
        if sp.varargs = some p.1 then none
        else
          match p.2 with
          | .one nd2 => some (nd2, p.1, lookupStr defaults p.1)
          | .tup _ => none)
      ++ (match sp.varargs with
          | some vn =>
            match saLookup st1.s_args vn with
            | some (.tup nds) =>
              nds.enum.map fun q => (q.2, vn ++ "_" ++ toString q.1, (none : Option Int))
            | _ => []
          | none => [])
    let outputs := st1.s_results.map Prod.snd
    let fnA : Artifact :=
      { inputs := inputs, outputs := outputs, singleOut := outputs.length == 1 }
    .ok (fnA, { st1 with cache := cacheInsert st1.cache (varargsCount sp ca) fnA })

/-- Errors surfaced by `Function.call`: a trace/compile failure or an
artifact invocation failure. -/
inductive CallErr where
  | traceErr : TraceErr → CallErr
  | invokeErr : String → CallErr

/-- Source lines 206-218, `Function.call`.  NB the source reads
`self.cache.get(key, self._compile_function(args, kwargs))`: Python
evaluates the second argument of `dict.get` *eagerly*, so
`_compile_function` (and hence a fresh trace) runs on every call, cache
hit or miss; the freshly compiled artifact also overwrites the cache entry
for the key before `get` consults it.  The artifact is then invoked with
the declared positional values, the variadic values, and the keyword bag
(lines 214-218). -/
def functionCall (pf : PyFn) (st : SymbolicState) (args : List PyVal)
    (kwargs : List (String × PyVal)) : Except CallErr PyReturn × SymbolicState :=
  let sp := pf.argspec
  let ca := orderedcallargs sp args kwargs
  match compileFunction pf st args kwargs with
  | .error (e, st1) => (.error (.traceErr e), st1)
  | .ok (newFn, st1) =>
    let fn := (cacheLookup st1.cache (varargsCount sp ca)).getD newFn
    let pos := (sp.args.map fun n =>
        (asSingleB ((lookupB ca n).getD (.single (.objV 0)))).toInt)
      ++ (varargsVals sp ca).map PyVal.toInt
    let kw := (bagVals sp ca).map fun q => (q.1, q.2.toInt)
    match artifactCall fn pos kw with
    | .ok r => (.ok r, st1)
    | .error m => (.error (.invokeErr m), st1)

/-- The gradient output: `tt.grad`'s list of gradient nodes, unwrapped
when it has exactly one element (source lines 251-252). -/
inductive GradOut where
  | one : Node → GradOut
  | many : List Node → GradOut
deriving DecidableEq

/-- The compiled gradient artifact: its inputs are the traced argument
nodes in the fixed order established at build time (positional argument
nodes, then keyword-value nodes), its output the gradient node(s). -/
structure GradFn where
  inputs : List Node
  output : GradOut
deriving DecidableEq

/-- The mutable state of a `Gradient` wrapper: the cached gradient
artifact (`self._grad_fn`, `None` when uncompiled) and the allocator. -/
structure GradientState where
  grad_fn : Option GradFn
  fresh : Nat
deriving DecidableEq

/-- Errors surfaced by `Gradient.__call__`: the `KeyError` re-raised after
printing that a variable could not be traced (lines 245-247), or an
artifact invocation failure. -/
inductive GradErr where
  | untraceable : GradErr
  | invokeErr : String → GradErr
deriving DecidableEq

/-- What invoking the gradient artifact returns: the artifact applied to
the call values (the numeric semantics of gradient nodes belong to the
external engine; the wiring — which artifact, which values, in which
order — is what the claims are about). -/
structure GradResult where
  fn : GradFn
  callVals : List PyVal

/-- Modelled from the spec: `tt.grad(output_node, [arg_nodes])` returns
one gradient node per argument node, in the argument nodes' order (spec
section 6: `gradient(output_node, [arg_nodes]) -> [gradient_nodes]`). -/
def ttGrad (out : Node) (wrt : List Node) : List Node :=
  wrt.map fun n => Node.gradN out n

/-- Look up the graph nodes of a list of values; `none` as soon as one
identity is missing (a Python list comprehension raising `KeyError`). -/
def lookAll (sv : List (PyId × Node)) : List PyVal → Option (List Node)
  | [] => some []
  | v :: vs =>
    match svLookup sv v.pyId, lookAll sv vs with
    | some n, some ns => some (n :: ns)
    | _, _ => none

/-- Modelled from the spec: invoking the compiled gradient artifact with
positional values.  A call whose arity differs from the artifact's input
list fails (the artifact's calling convention is fixed at build time). -/
def gradArtifactApply (gf : GradFn) (vals : List PyVal) : Except String GradResult :=
  if vals.length = gf.inputs.length then .ok { fn := gf, callVals := vals }
  else .error "wrong number of arguments"

/-- Source lines 234-263, `Gradient.__call__`.  With no cached artifact:
run the function once under the engine (no small-int boxing here — the
source's TODO), look up the nodes of the positional arguments, the keyword
values and the single result, differentiate (one gradient per argument
node, positional before keyword; a single gradient is unwrapped), compile
and cache the gradient artifact.  Then — in either state — invoke the
cached artifact with the positional arguments concatenated with the
keyword values; any invocation error discards the cached artifact
(`self._grad_fn = None`) and re-raises. -/
def gradientCall (pf : PyFn) (gst : GradientState) (args : List PyVal)
    (kwargs : List (String × PyVal)) : Except GradErr GradResult × GradientState :=
  match gst.grad_fn with
  | none =>
    let p := contextCall pf args kwargs gst.fresh
    match lookAll p.2.1 args, lookAll p.2.1 (kwargs.map Prod.snd),
        svLookup p.2.1 p.1.pyId with
    | some s_args, some s_kwargs, some s_result =>
      let grad := ttGrad s_result (s_args ++ s_kwargs)
      let gout : GradOut :=
        if grad.length = 1 then .one (grad.headD (.constN 0)) else .many grad
      let gf : GradFn := { inputs := s_args ++ s_kwargs, output := gout }
      let gst1 : GradientState := { grad_fn := some gf, fresh := p.2.2 }
      let all_args := args ++ kwargs.map Prod.snd
      match gradArtifactApply gf all_args with
      | .ok r => (.ok r, gst1)
      | .error m => (.error (.invokeErr m), { gst1 with grad_fn := none })
    | _, _, _ => (.error .untraceable, { gst with fresh := p.2.2 })
  | some gf =>
    let all_args := args ++ kwargs.map Prod.snd
    match gradArtifactApply gf all_args with
    | .ok r => (.ok r, gst)
    | .error m => (.error (.invokeErr m), { gst with grad_fn := none })

/-- Classifier: is this the `TypeError` raised by `check` for a container
argument? -/
def TraceErr.isContainerErr : TraceErr → Bool
  | .containerArg _ _ => true
  | _ => false

theorem collectVar_err_not_container (sv : List (PyId × Node)) (name : String) :
    ∀ (vs : List PyVal) (i : Nat) (e : TraceErr),
      (collectVar sv name i vs).2 = some e → e.isContainerErr = false := by
  intro vs
  induction vs with
  | nil => intro i e h; simp [collectVar] at h
  | cons a rest ih =>
    intro i e h
    unfold collectVar at h
    cases hl : svLookup sv a.pyId with
    | none =>
      rw [hl] at h
      simp at h
      rw [← h]
      rfl
    | some nd =>
      rw [hl] at h
      exact ih (i + 1) e h

theorem collectKw_err_not_container (sv : List (PyId × Node)) :
    ∀ (kvs : List (String × PyVal)) (e : TraceErr),
      (collectKw sv kvs).2 = some e → e.isContainerErr = false := by
  intro kvs
  induction kvs with
  | nil => intro e h; simp [collectKw] at h
  | cons a rest ih =>
    intro e h
    unfold collectKw at h
    cases hl : svLookup sv a.2.pyId with
    | none =>
      rw [hl] at h
      simp at h
      rw [← h]
      rfl
    | some nd =>
      rw [hl] at h
      exact ih e h

theorem buildSArgs_err_not_container (sp : ArgSpec) (sv : List (PyId × Node)) :
    ∀ (ca : List (String × BoundVal)) (acc : List (String × SArg)) (e : TraceErr),
      (buildSArgs sp sv acc ca).2 = some e → e.isContainerErr = false := by
  intro ca
  induction ca with
  | nil => intro acc e h; simp [buildSArgs] at h
  | cons a rest ih =>
    intro acc e h
    unfold buildSArgs at h
    simp only [] at h
    by_cases h1 : sp.varargs = some a.1
    · rw [if_pos h1] at h
      cases hv : (collectVar sv a.1 0 (asTupleB a.2)).2 with
      | none =>
        rw [hv] at h
        exact ih _ e h
      | some e2 =>
        rw [hv] at h
        simp at h
        rw [← h]
        exact collectVar_err_not_container sv a.1 (asTupleB a.2) 0 e2 hv
    · rw [if_neg h1] at h
      by_cases h2 : sp.keywords = some a.1
      · rw [if_pos h2] at h
        cases hv : (collectKw sv (asDictB a.2)).2 with
        | none =>
          rw [hv] at h
          exact ih _ e h
        | some e2 =>
          rw [hv] at h
          simp at h
          rw [← h]
          exact collectKw_err_not_container sv (asDictB a.2) e2 hv
      · rw [if_neg h2] at h
        cases hl : svLookup sv (asSingleB a.2).pyId with
        | none =>
          rw [hl] at h
          simp at h
          rw [← h]
          rfl
        | some nd =>
          rw [hl] at h
          exact ih _ e h

theorem buildSResults_err_not_container (sv : List (PyId × Node)) :
    ∀ (rs : List PyVal) (acc : List (PyId × Node)) (i : Nat) (e : TraceErr),
      (buildSResults sv acc i rs).2 = some e → e.isContainerErr = false := by
  intro rs
  induction rs with
  | nil => intro acc i e h; simp [buildSResults] at h
  | cons r rest ih =>
    intro acc i e h
    unfold buildSResults at h
    cases hl : svLookup sv r.pyId with
    | none =>
      rw [hl] at h
      simp at h
      rw [← h]
      rfl
    | some nd =>
      rw [hl] at h
      exact ih _ _ e h

theorem traceCore_err_not_container (pf : PyFn) (st : SymbolicState)
    (cargs : List PyVal) (ckwargs : List (String × PyVal)) (f1 : Nat)
    (e : TraceErr) (st' : SymbolicState)
    (h : traceCore pf st cargs ckwargs f1 = .error (e, st')) :
    e.isContainerErr = false := by
  unfold traceCore at h
  simp only [] at h
  cases hq : (buildSArgs pf.argspec (contextCall pf cargs ckwargs f1).2.1 []
      (orderedcallargs pf.argspec cargs ckwargs)).2 with
  | some e2 =>
    rw [hq] at h
    simp at h
    rw [← h.1]
    exact buildSArgs_err_not_container _ _ _ _ e2 hq
  | none =>
    rw [hq] at h
    cases hw : (buildSResults (contextCall pf cargs ckwargs f1).2.1 [] 0
        (normResults (contextCall pf cargs ckwargs f1).1)).2 with
    | some e2 =>
      rw [hw] at h
      simp at h
      rw [← h.1]
      exact buildSResults_err_not_container _ _ _ _ e2 hw
    | none =>
      rw [hw] at h
      simp at h

theorem check_error_elim (f : Nat) (n : String) (v : PyVal) (e : TraceErr)
    (h : check f n v = .error e) : e = .containerArg n v ∧ v.isContainer = true := by
  cases v with
  | intV a m =>
    simp only [check] at h
    split at h <;> simp at h
  | npint a m => simp [check] at h
  | strV a s => simp [check] at h
  | objV a => simp [check] at h
  | listV a l =>
    simp [check] at h
    exact ⟨h.symm, rfl⟩
  | tupleV a l =>
    simp [check] at h
    exact ⟨h.symm, rfl⟩
  | dictV a l =>
    simp [check] at h
    exact ⟨h.symm, rfl⟩

theorem check_ok_elim (f : Nat) (n : String) (v : PyVal) (t : PyVal × Nat)
    (h : check f n v = .ok t) : v.isContainer = false := by
  cases v with
  | intV a m => rfl
  | npint a m => rfl
  | strV a s => rfl
  | objV a => rfl
  | listV a l => simp [check] at h
  | tupleV a l => simp [check] at h
  | dictV a l => simp [check] at h

theorem checkList_error_elim :
    ∀ (ps : List (String × PyVal)) (f : Nat) (e : TraceErr),
      checkList f ps = .error e →
      ∃ n v, e = .containerArg n v ∧ (n, v) ∈ ps ∧ v.isContainer = true := by
  intro ps
  induction ps with
  | nil => intro f e h; simp [checkList] at h
  | cons a rest ih =>
    rcases a with ⟨n1, v1⟩
    intro f e h
    unfold checkList at h
    cases hc : check f n1 v1 with
    | error e2 =>
      rw [hc] at h
      simp at h
      obtain ⟨he, hcont⟩ := check_error_elim f n1 v1 e2 hc
      exact ⟨n1, v1, h ▸ he, List.mem_cons_self _ _, hcont⟩
    | ok t =>
      rcases t with ⟨v2, f2⟩
      rw [hc] at h
      simp only [] at h
      cases hr : checkList f2 rest with
      | error e2 =>
        rw [hr] at h
        simp at h
        obtain ⟨n, v, he, hm, hcv⟩ := ih f2 e2 hr
        exact ⟨n, v, h ▸ he, List.mem_cons_of_mem _ hm, hcv⟩
      | ok t2 =>
        rw [hr] at h
        simp at h

theorem checkList_ok_no_container :
    ∀ (ps : List (String × PyVal)) (f : Nat) (t : List PyVal × Nat),
      checkList f ps = .ok t → ∀ p ∈ ps, p.2.isContainer = false := by
  intro ps
  induction ps with
  | nil => intro f t _ p hp; simp at hp
  | cons a rest ih =>
    rcases a with ⟨n1, v1⟩
    intro f t h p hp
    unfold checkList at h
    cases hc : check f n1 v1 with
    | error e2 => rw [hc] at h; simp at h
    | ok t1 =>
      rcases t1 with ⟨v2, f2⟩
      rw [hc] at h
      simp only [] at h
      cases hr : checkList f2 rest with
      | error e2 => rw [hr] at h; simp at h
      | ok t2 =>
        rcases List.mem_cons.mp hp with h1 | h1
        · rw [h1]
          exact check_ok_elim f n1 v1 _ hc
        · exact ih f2 t2 hr p h1

theorem runChecks_error_elim (sp : ArgSpec) (args : List PyVal)
    (kwargs : List (String × PyVal)) (f : Nat) (e : TraceErr)
    (h : runChecks sp args kwargs f = .error e) :
    ∃ n v, e = .containerArg n v ∧ (n, v) ∈ checkSeq sp args kwargs ∧
      v.isContainer = true := by
  unfold runChecks at h
  cases h1 : checkList f (sp.args.zip args) with
  | error e1 =>
    rw [h1] at h
    simp at h
    obtain ⟨n, v, he, hm, hc⟩ := checkList_error_elim _ _ _ h1
    exact ⟨n, v, h ▸ he, List.mem_append_left _ (List.mem_append_left _ hm), hc⟩
  | ok t1 =>
    rcases t1 with ⟨tmp, f1⟩
    rw [h1] at h
    simp only [] at h
    cases h2 : checkList f1 ((args.drop sp.args.length).map fun a => (sp.varargs.getD "None", a)) with
    | error e2 =>
      rw [h2] at h
      simp at h
      obtain ⟨n, v, he, hm, hc⟩ := checkList_error_elim _ _ _ h2
      exact ⟨n, v, h ▸ he, List.mem_append_left _ (List.mem_append_right _ hm), hc⟩
    | ok t2 =>
      rcases t2 with ⟨extra, f2⟩
      rw [h2] at h
      simp only [] at h
      cases h3 : checkList f2 kwargs with
      | error e3 =>
        rw [h3] at h
        simp at h
        obtain ⟨n, v, he, hm, hc⟩ := checkList_error_elim _ _ _ h3
        exact ⟨n, v, h ▸ he, List.mem_append_right _ hm, hc⟩
      | ok t3 =>
        rw [h3] at h
        simp at h

theorem runChecks_error_of_container (sp : ArgSpec) (args : List PyVal)
    (kwargs : List (String × PyVal)) (f : Nat)
    (h : ∃ p ∈ checkSeq sp args kwargs, p.2.isContainer = true) :
    ∃ e, runChecks sp args kwargs f = .error e := by
  obtain ⟨p, hp, hc⟩ := h
  cases hr : runChecks sp args kwargs f with
  | error e => exact ⟨e, rfl⟩
  | ok t =>
    exfalso
    unfold runChecks at hr
    cases h1 : checkList f (sp.args.zip args) with
    | error e1 => rw [h1] at hr; simp at hr
    | ok t1 =>
      rcases t1 with ⟨tmp, f1⟩
      rw [h1] at hr
      simp only [] at hr
      cases h2 : checkList f1 ((args.drop sp.args.length).map fun a => (sp.varargs.getD "None", a)) with
      | error e2 => rw [h2] at hr; simp at hr
      | ok t2 =>
        rcases t2 with ⟨extra, f2⟩
        rw [h2] at hr
        simp only [] at hr
        cases h3 : checkList f2 kwargs with
        | error e3 => rw [h3] at hr; simp at hr
        | ok t3 =>
          rcases (List.mem_append.mp hp) with hm | hm
          · rcases (List.mem_append.mp hm) with hm1 | hm1
            · rw [checkList_ok_no_container _ _ _ h1 p hm1] at hc
              exact Bool.false_ne_true hc
            · rw [checkList_ok_no_container _ _ _ h2 p hm1] at hc
              exact Bool.false_ne_true hc
          · rw [checkList_ok_no_container _ _ _ h3 p hm] at hc
            exact Bool.false_ne_true hc

/-! ## C4: container arguments are rejected during pre-processing -/

/-- **C4** (confirmed): if any checked argument position — declared
positional, variadic element, or keyword — carries a container value, then
`trace` raises the `TypeError` from `check` *immediately*: the error names
an offending argument, and the carried state is the caller's state,
untouched (in particular no instrumented execution has run — pre-processing
happens before anything else). -/
theorem claim_C4_theorem (pf : PyFn) (st : SymbolicState) (args : List PyVal)
    (kwargs : List (String × PyVal))
    (h : ∃ p ∈ checkSeq pf.argspec args kwargs, p.2.isContainer = true) :
    ∃ n v, trace pf st args kwargs = .error (.containerArg n v, st) ∧
      (n, v) ∈ checkSeq pf.argspec args kwargs ∧ v.isContainer = true := by
  obtain ⟨e, he⟩ := runChecks_error_of_container pf.argspec args kwargs st.fresh h
  obtain ⟨n, v, rfl, hm, hc⟩ := runChecks_error_elim _ _ _ _ _ he
  refine ⟨n, v, ?_, hm, hc⟩
  unfold trace
  rw [he]

/-- Concrete identity function `f(x) = x` used by several witnesses. -/
def idFn : PyFn :=
  { argspec := { args := ["x"], varargs := none, keywords := none, defaults := [] },
    body := [.ref (.pos "x")], retTuple := false }

/-- A wrapper state before any trace, allocator above all
concretely-used addresses. -/
def initState : SymbolicState :=
  { s_vars := [], s_args := [], s_results := [], cache := [], fresh := 100,
    traceCount := 0 }

theorem claim_C4_witness :
    (∃ p ∈ checkSeq idFn.argspec [.listV 0 []] [], p.2.isContainer = true) ∧
    ∃ n v, trace idFn initState [.listV 0 []] [] = .error (.containerArg n v, initState) ∧
      (n, v) ∈ checkSeq idFn.argspec [.listV 0 []] [] ∧ v.isContainer = true := by
  have hx : ∃ p ∈ checkSeq idFn.argspec [.listV 0 []] [], p.2.isContainer = true := by
    refine ⟨("x", .listV 0 []), ?_, rfl⟩
    simp [checkSeq, idFn]
  exact ⟨hx, claim_C4_theorem idFn initState [.listV 0 []] [] hx⟩

/-! ## C10: a pre-processing failure leaves the symbolic maps untouched -/

/-- **C10** (confirmed): when `trace` raises the container `TypeError`
during argument pre-processing, the wrapper state — in particular
`s_vars`, `s_args` and `s_results` — is exactly the state before the call:
the checks run before the three dictionaries are cleared, so the previous
successful trace's contents survive. -/
theorem claim_C10_theorem (pf : PyFn) (st : SymbolicState) (args : List PyVal)
    (kwargs : List (String × PyVal)) (name : String) (v : PyVal)
    (st' : SymbolicState)
    (h : trace pf st args kwargs = .error (.containerArg name v, st')) :
    st' = st := by
  unfold trace at h
  cases hrc : runChecks pf.argspec args kwargs st.fresh with
  | error e =>
    rw [hrc] at h
    simp at h
    exact h.2.symm
  | ok t =>
    rcases t with ⟨cargs, ckwargs, f1⟩
    rw [hrc] at h
    have := traceCore_err_not_container pf st cargs ckwargs f1 _ st' h
    simp [TraceErr.isContainerErr] at this

/-- A state holding the residue of an earlier successful trace. -/
def dirtyState : SymbolicState :=
  { s_vars := [(.addr 3, .constN 7)], s_args := [("z", .one (.constN 7))],
    s_results := [(.addr 3, .constN 7)], cache := [], fresh := 100,
    traceCount := 4 }

theorem claim_C10_witness :
    trace idFn dirtyState [.listV 0 []] [] =
      .error (.containerArg "x" (.listV 0 []), dirtyState) ∧ dirtyState = dirtyState :=
  ⟨rfl, claim_C10_theorem idFn dirtyState [.listV 0 []] [] "x" (.listV 0 [])
    dirtyState rfl⟩

/-! ## C8: a failed gradient invocation resets the cached artifact -/

/-- **C8** (confirmed): with a cached gradient artifact, an invocation
error discards the artifact (`grad_fn` back to `none`, the uncompiled
state) and re-raises the error to the caller — so the next call goes
through the compile path again. -/
theorem claim_C8_theorem (pf : PyFn) (gst : GradientState) (args : List PyVal)
    (kwargs : List (String × PyVal)) (gf : GradFn) (m : String)
    (h1 : gst.grad_fn = some gf)
    (h2 : gradArtifactApply gf (args ++ kwargs.map Prod.snd) = .error m) :
    gradientCall pf gst args kwargs =
      (.error (.invokeErr m), { gst with grad_fn := none }) := by
  unfold gradientCall
  rw [h1]
  simp only []
  rw [h2]

/-- A gradient artifact over one input. -/
def oneInputGradFn : GradFn := { inputs := [.inp 100], output := .one (.gradN (.constN 0) (.inp 100)) }

theorem claim_C8_witness :
    gradientCall idFn { grad_fn := some oneInputGradFn, fresh := 100 }
        [.intV 0 1000, .intV 1 2000] [] =
      (.error (.invokeErr "wrong number of arguments"),
        { grad_fn := none, fresh := 100 }) :=
  claim_C8_theorem idFn { grad_fn := some oneInputGradFn, fresh := 100 }
    [.intV 0 1000, .intV 1 2000] [] oneInputGradFn "wrong number of arguments" rfl rfl

/-! ## C1: the artifact cache never prevents a retrace (code bug) -/

/-- The squaring function `f(x) = x * x`. -/
def sqFn : PyFn :=
  { argspec := { args := ["x"], varargs := none, keywords := none, defaults := [] },
    body := [.mul (.ref (.pos "x")) (.ref (.pos "x"))], retTuple := false }

/-- **C1** (code bug): `Function.call` reads
`self.cache.get(key, self._compile_function(args, kwargs))` — Python
evaluates `dict.get`'s second argument eagerly, so `_compile_function`
(one fresh trace plus compilation) runs on *every* call.  Concretely:
after a first call of the wrapped `f(x) = x * x` the cache holds the
artifact for variadic count 0, yet a second call with the same variadic
count still performs another instrumented execution (the ghost trace
counter reaches 2, where the claim implies it would stay at 1), both calls
still returning the correct value. -/
theorem claim_C1_code_bug :
    varargsCount sqFn.argspec (orderedcallargs sqFn.argspec [.intV 0 1000] []) = 0 ∧
    (functionCall sqFn initState [.intV 0 1000] []).2.traceCount = 1 ∧
    (cacheLookup (functionCall sqFn initState [.intV 0 1000] []).2.cache 0).isSome
      = true ∧
    (functionCall sqFn (functionCall sqFn initState [.intV 0 1000] []).2
      [.intV 0 1000] []).2.traceCount = 2 ∧
    (functionCall sqFn (functionCall sqFn initState [.intV 0 1000] []).2
      [.intV 0 1000] []).1 = .ok (.single 1000000) :=
  ⟨rfl, rfl, rfl, rfl, rfl⟩

/-! ## C6: every trace rebuilds the symbolic maps from scratch -/

theorem traceCore_maps_eq (pf : PyFn) (st st2 : SymbolicState) (cargs : List PyVal)
    (ckwargs : List (String × PyVal)) (f1 : Nat) :
    (traceCore pf st cargs ckwargs f1).toOption.map
      (fun s => (s.s_vars, s.s_args, s.s_results)) =
    (traceCore pf st2 cargs ckwargs f1).toOption.map
      (fun s => (s.s_vars, s.s_args, s.s_results)) := by
  unfold traceCore
  simp only []
  cases (buildSArgs pf.argspec (contextCall pf cargs ckwargs f1).2.1 []
      (orderedcallargs pf.argspec cargs ckwargs)).2 with
  | some e => rfl
  | none =>
    cases (buildSResults (contextCall pf cargs ckwargs f1).2.1 [] 0
        (normResults (contextCall pf cargs ckwargs f1).1)).2 with
    | some e => rfl
    | none => rfl

/-- **C6** (confirmed): the three symbolic dictionaries produced by a
trace do not depend on their contents before the call — they are cleared
and rebuilt from the current instrumented execution alone.  Two wrapper
states with the same allocator, whatever their previous `s_vars`,
`s_args`, `s_results` (or cache), yield identical maps, so a re-trace
never reuses or merges nodes from a prior trace. -/
theorem claim_C6_theorem (pf : PyFn) (st st2 : SymbolicState) (args : List PyVal)
    (kwargs : List (String × PyVal)) (hf : st2.fresh = st.fresh) :
    (trace pf st args kwargs).toOption.map
      (fun s => (s.s_vars, s.s_args, s.s_results)) =
    (trace pf st2 args kwargs).toOption.map
      (fun s => (s.s_vars, s.s_args, s.s_results)) := by
  unfold trace
  rw [hf]
  cases runChecks pf.argspec args kwargs st.fresh with
  | error e => rfl
  | ok t =>
    rcases t with ⟨cargs, ckwargs, f1⟩
    exact traceCore_maps_eq pf st st2 cargs ckwargs f1

theorem claim_C6_witness :
    (trace sqFn dirtyState [.intV 0 1000] []).toOption.map
      (fun s => (s.s_vars, s.s_args, s.s_results)) =
    (trace sqFn initState [.intV 0 1000] []).toOption.map
      (fun s => (s.s_vars, s.s_args, s.s_results)) :=
  claim_C6_theorem sqFn dirtyState initState [.intV 0 1000] [] rfl

/-! ## C5 / C7: concrete counterexamples -/

/-- `f(x): return x, x` — returns the same object twice. -/
def dupFn : PyFn :=
  { argspec := { args := ["x"], varargs := none, keywords := none, defaults := [] },
    body := [.ref (.pos "x"), .ref (.pos "x")], retTuple := true }

/-- **C5** (counterexample): `s_results` is keyed by `id(obj)`, so for
`f(x): return x, x` — a successful trace with *two* returned values — the
map holds a *single* entry, not one entry per returned value as the claim
states. -/
theorem claim_C5_counterexample :
    (normResults (contextCall dupFn [.intV 0 1000] [] 100).1).length = 2 ∧
    (trace dupFn initState [.intV 0 1000] []).toOption.map
      (fun s => s.s_results.length) = some 1 :=
  ⟨rfl, rfl⟩

/-- Projection: the error raised by a trace, if any. -/
def errOf : Except (TraceErr × SymbolicState) SymbolicState → Option TraceErr
  | .error (e, _) => some e
  | .ok _ => none

/-- `f(*va): return 300` — used to fail tracing of the first variadic
element. -/
def vaFn : PyFn :=
  { argspec := { args := [], varargs := some "va", keywords := none, defaults := [] },
    body := [.litInt 300], retTuple := false }

/-- **C7** (counterexample): tracing `f(*va)` with an untrackable first
variadic element raises the `KeyError` whose message prints index `0` for
the first element — the `enumerate` index, which is 0-based, not the
1-based index the claim states (contrast the result error, which prints
`i + 1`). -/
theorem claim_C7_counterexample :
    errOf (trace vaFn initState [.strV 0 "s"] []) =
      some (.untraceableVarItem 0 "va") :=
  rfl

/-! ## C9: gradient order, unwrapping, and invocation values -/

theorem lookAll_length (sv : List (PyId × Node)) :
    ∀ (vs : List PyVal) (ns : List Node), lookAll sv vs = some ns →
      ns.length = vs.length := by
  intro vs
  induction vs with
  | nil => intro ns h; simp [lookAll] at h; simp [← h]
  | cons v rest ih =>
    intro ns h
    unfold lookAll at h
    cases hl : svLookup sv v.pyId with
    | none => rw [hl] at h; simp at h
    | some n =>
      rw [hl] at h
      cases hr : lookAll sv rest with
      | none => rw [hr] at h; simp at h
      | some ns2 =>
        rw [hr] at h
        simp at h
        rw [← h]
        simp [ih ns2 hr]

/-- **C9** (confirmed): in the uncompiled state, a `Gradient` call that
traces successfully differentiates the single result with respect to the
argument nodes in the fixed order *positional arguments first, then
keyword values* (`ttGrad` yields one gradient node per argument node, in
that order); a sole gradient node is unwrapped from its one-element list;
and the artifact — then and on every later (ready-state) call — is
invoked with the positional arguments concatenated with the keyword
values in that same order. -/
theorem claim_C9_theorem (pf : PyFn) (gst : GradientState) (args : List PyVal)
    (kwargs : List (String × PyVal)) (resObj : PyVal) (sv : List (PyId × Node))
    (f1 : Nat) (sa skw : List Node) (sres : Node)
    (h0 : gst.grad_fn = none)
    (hctx : contextCall pf args kwargs gst.fresh = (resObj, sv, f1))
    (ha : lookAll sv args = some sa)
    (hk : lookAll sv (kwargs.map Prod.snd) = some skw)
    (hr : svLookup sv resObj.pyId = some sres) :
    (∃ gf : GradFn,
      gf.inputs = sa ++ skw ∧
      gf.output = (if (ttGrad sres (sa ++ skw)).length = 1
                   then GradOut.one ((ttGrad sres (sa ++ skw)).headD (.constN 0))
                   else GradOut.many (ttGrad sres (sa ++ skw))) ∧
      gradientCall pf gst args kwargs =
        (.ok { fn := gf, callVals := args ++ kwargs.map Prod.snd },
         { grad_fn := some gf, fresh := f1 })) ∧
    (∀ (gst2 : GradientState) (gf2 : GradFn) (r : GradResult),
      gst2.grad_fn = some gf2 →
      gradientCall pf gst2 args kwargs = (.ok r, gst2) →
      r.fn = gf2 ∧ r.callVals = args ++ kwargs.map Prod.snd) := by
  have hl1 := lookAll_length sv args sa ha
  have hl2 := lookAll_length sv (kwargs.map Prod.snd) skw hk
  constructor
  · refine ⟨{ inputs := sa ++ skw,
              output := if (ttGrad sres (sa ++ skw)).length = 1
                        then GradOut.one ((ttGrad sres (sa ++ skw)).headD (.constN 0))
                        else GradOut.many (ttGrad sres (sa ++ skw)) },
      rfl, rfl, ?_⟩
    unfold gradientCall
    rw [h0]
    simp only []
    rw [hctx]
    simp only []
    rw [ha, hk, hr]
    simp only []
    unfold gradArtifactApply
    rw [if_pos]
    rw [List.length_append, List.length_append, hl1, hl2,
      List.length_map]
  · intro gst2 gf2 r h2 hcall
    unfold gradientCall at hcall
    rw [h2] at hcall
    simp only [] at hcall
    cases happ : gradArtifactApply gf2 (args ++ kwargs.map Prod.snd) with
    | ok r2 =>
      rw [happ] at hcall
      simp at hcall
      have h4 : r2 = { fn := gf2, callVals := args ++ kwargs.map Prod.snd } := by
        unfold gradArtifactApply at happ
        split at happ
        · simp at happ
          exact happ.symm
        · simp at happ
      rw [← hcall, h4]
      exact ⟨rfl, rfl⟩
    | error m =>
      rw [happ] at hcall
      simp at hcall

/-- Concrete data of the single successful trace of `sqFn` at `x = 1000`
(allocator at 100): the argument node and the product node. -/
def sqTraceSv : List (PyId × Node) :=
  [(.addr 0, .inp 100), (.addr 101, .mulN (.inp 100) (.inp 100))]

theorem claim_C9_witness :
    (∃ gf : GradFn,
      gf.inputs = [Node.inp 100] ++ [] ∧
      gf.output = (if (ttGrad (.mulN (.inp 100) (.inp 100)) ([Node.inp 100] ++ [])).length = 1
                   then GradOut.one ((ttGrad (.mulN (.inp 100) (.inp 100)) ([Node.inp 100] ++ [])).headD (.constN 0))
                   else GradOut.many (ttGrad (.mulN (.inp 100) (.inp 100)) ([Node.inp 100] ++ []))) ∧
      gradientCall sqFn { grad_fn := none, fresh := 100 } [.intV 0 1000] [] =
        (.ok { fn := gf, callVals := [.intV 0 1000] ++ ([] : List (String × PyVal)).map Prod.snd },
         { grad_fn := some gf, fresh := 102 })) ∧
    (∀ (gst2 : GradientState) (gf2 : GradFn) (r : GradResult),
      gst2.grad_fn = some gf2 →
      gradientCall sqFn gst2 [.intV 0 1000] [] = (.ok r, gst2) →
      r.fn = gf2 ∧ r.callVals = [.intV 0 1000] ++ ([] : List (String × PyVal)).map Prod.snd) :=
  claim_C9_theorem sqFn { grad_fn := none, fresh := 100 } [.intV 0 1000] []
    (.npint 101 1000000) sqTraceSv 102 [.inp 100] []
    (.mulN (.inp 100) (.inp 100)) rfl rfl rfl rfl rfl

/-! ## Characterization of a successful `s_args` / `s_results` build -/

theorem checkList_ok_length :
    ∀ (ps : List (String × PyVal)) (f : Nat) (vs : List PyVal) (f2 : Nat),
      checkList f ps = .ok (vs, f2) → vs.length = ps.length := by
  intro ps
  induction ps with
  | nil => intro f vs f2 h; simp [checkList] at h; simp [← h.1]
  | cons a rest ih =>
    rcases a with ⟨n1, v1⟩
    intro f vs f2 h
    unfold checkList at h
    cases hc : check f n1 v1 with
    | error e => rw [hc] at h; simp at h
    | ok t =>
      rcases t with ⟨v2, fb⟩
      rw [hc] at h
      simp only [] at h
      cases hr : checkList fb rest with
      | error e => rw [hr] at h; simp at h
      | ok t2 =>
        rcases t2 with ⟨vs2, f3⟩
        rw [hr] at h
        simp at h
        rw [← h.1]
        simp [ih fb vs2 f3 hr]

theorem runChecks_keys (sp : ArgSpec) (args : List PyVal)
    (kwargs : List (String × PyVal)) (f : Nat) (cargs : List PyVal)
    (ckwargs : List (String × PyVal)) (f1 : Nat)
    (h : runChecks sp args kwargs f = .ok (cargs, ckwargs, f1)) :
    ckwargs.map Prod.fst = kwargs.map Prod.fst := by
  unfold runChecks at h
  cases h1 : checkList f (sp.args.zip args) with
  | error e => rw [h1] at h; simp at h
  | ok t1 =>
    rcases t1 with ⟨tmp, fa⟩
    rw [h1] at h
    simp only [] at h
    cases h2 : checkList fa ((args.drop sp.args.length).map fun a => (sp.varargs.getD "None", a)) with
    | error e => rw [h2] at h; simp at h
    | ok t2 =>
      rcases t2 with ⟨extra, fb⟩
      rw [h2] at h
      simp only [] at h
      cases h3 : checkList fb kwargs with
      | error e => rw [h3] at h; simp at h
      | ok t3 =>
        rcases t3 with ⟨kvals, f3⟩
        rw [h3] at h
        simp at h
        have hlen : kvals.length = kwargs.length := checkList_ok_length _ _ _ _ h3
        rw [← h.2.1]
        rw [List.map_fst_zip]
        rw [List.length_map, hlen]

theorem srInsert_keys (k : PyId) (v : Node) :
    ∀ (acc : List (PyId × Node)),
      (srInsert acc k v).map Prod.fst =
        if k ∈ acc.map Prod.fst then acc.map Prod.fst else acc.map Prod.fst ++ [k] := by
  intro acc
  induction acc with
  | nil => simp [srInsert]
  | cons p rest ih =>
    unfold srInsert
    by_cases hp : p.1 = k
    · rw [if_pos hp]
      simp [hp]
    · rw [if_neg hp]
      by_cases hm : k ∈ rest.map Prod.fst
      · have hm2 : k ∈ (p :: rest).map Prod.fst := by
          rw [List.map_cons]
          exact List.mem_cons_of_mem _ hm
        rw [if_pos hm2]
        simp only [List.map_cons]
        rw [ih, if_pos hm]
      · have hm2 : k ∉ (p :: rest).map Prod.fst := by
          rw [List.map_cons]
          intro hmem
          rcases List.mem_cons.mp hmem with he | he
          · exact hp he.symm
          · exact hm he
        rw [if_neg hm2]
        simp only [List.map_cons]
        rw [ih, if_neg hm]
        simp

theorem map_fst_keyed {α β γ : Type} (g : α × β → γ) (l : List (α × β)) :
    (l.map fun q => (q.1, g q)).map Prod.fst = l.map Prod.fst := by
  induction l with
  | nil => rfl
  | cons a rest ih => simp [ih]

theorem buildSResults_ok_keys (sv : List (PyId × Node)) :
    ∀ (rs : List PyVal) (acc : List (PyId × Node)) (i : Nat),
      (buildSResults sv acc i rs).2 = none →
      ((acc.map Prod.fst).Nodup → (((buildSResults sv acc i rs).1.map Prod.fst).Nodup)) ∧
      (∀ k, k ∈ (buildSResults sv acc i rs).1.map Prod.fst ↔
        k ∈ acc.map Prod.fst ∨ k ∈ rs.map PyVal.pyId) := by
  intro rs
  induction rs with
  | nil =>
    intro acc i _
    constructor
    · intro h2; simpa [buildSResults] using h2
    · intro k; simp [buildSResults]
  | cons r rest ih =>
    intro acc i h
    unfold buildSResults at h ⊢
    cases hl : svLookup sv r.pyId with
    | none => rw [hl] at h; simp at h
    | some nd =>
      rw [hl] at h
      simp only [] at h ⊢
      have hkeys := srInsert_keys r.pyId nd acc
      obtain ⟨ihn, ihm⟩ := ih (srInsert acc r.pyId nd) (i + 1) h
      constructor
      · intro hnd
        apply ihn
        rw [hkeys]
        by_cases hm : r.pyId ∈ acc.map Prod.fst
        · rw [if_pos hm]; exact hnd
        · rw [if_neg hm]
          rw [List.nodup_append]
          refine ⟨hnd, List.nodup_singleton _, ?_⟩
          intro a ha hb
          simp at hb
          rw [hb] at ha
          exact hm ha
      · intro k
        rw [ihm k, hkeys]
        by_cases hm : r.pyId ∈ acc.map Prod.fst
        · rw [if_pos hm]
          constructor
          · rintro (h1 | h1)
            · exact Or.inl h1
            · exact Or.inr (List.mem_cons_of_mem _ h1)
          · rintro (h1 | h1)
            · exact Or.inl h1
            · rcases List.mem_cons.mp h1 with h2 | h2
              · exact Or.inl (h2 ▸ hm)
              · exact Or.inr h2
        · rw [if_neg hm]
          simp
          constructor
          · rintro ((h1 | h1) | h1)
            · exact Or.inl h1
            · exact Or.inr (Or.inl h1)
            · exact Or.inr (Or.inr h1)
          · rintro (h1 | h1 | h1)
            · exact Or.inl (Or.inl h1)
            · exact Or.inl (Or.inr h1)
            · exact Or.inr h1

theorem collectVar_ok_explicit (sv : List (PyId × Node)) (name : String) :
    ∀ (vs : List PyVal) (i : Nat),
      (∀ v ∈ vs, (svLookup sv v.pyId).isSome = true) →
      collectVar sv name i vs =
        (vs.map fun v => (svLookup sv v.pyId).getD (.constN 0), none) := by
  intro vs
  induction vs with
  | nil => intro i _; rfl
  | cons v rest ih =>
    intro i hl
    obtain ⟨nd, hnd⟩ := Option.isSome_iff_exists.mp (hl v (List.mem_cons_self _ _))
    unfold collectVar
    rw [hnd]
    simp only []
    rw [ih (i + 1) fun w hw => hl w (List.mem_cons_of_mem _ hw)]
    simp [hnd]

theorem collectKw_ok_explicit (sv : List (PyId × Node)) :
    ∀ (kvs : List (String × PyVal)),
      (∀ q ∈ kvs, (svLookup sv q.2.pyId).isSome = true) →
      ∃ prs, collectKw sv kvs = (prs, none) ∧
        (prs.map fun q => (q.1, SArg.one q.2)) =
          (kvs.map fun q => (q.1, SArg.one ((svLookup sv q.2.pyId).getD (.constN 0)))) ∧
        prs.map Prod.fst = kvs.map Prod.fst := by
  intro kvs
  induction kvs with
  | nil => intro _; exact ⟨[], rfl, rfl, rfl⟩
  | cons q rest ih =>
    intro hl
    obtain ⟨nd, hnd⟩ := Option.isSome_iff_exists.mp (hl q (List.mem_cons_self _ _))
    obtain ⟨prs, hp, ih1, ih2⟩ := ih fun w hw => hl w (List.mem_cons_of_mem _ hw)
    refine ⟨(q.1, nd) :: prs, ?_, ?_, ?_⟩
    · unfold collectKw
      rw [hnd]
      simp only []
      rw [hp]
    · simp only [List.map_cons]
      rw [ih1, hnd]
      rfl
    · simp only [List.map_cons]
      rw [ih2]

theorem saInsert_append (k : String) (v : SArg) :
    ∀ (acc : List (String × SArg)), k ∉ acc.map Prod.fst →
      saInsert acc k v = acc ++ [(k, v)] := by
  intro acc
  induction acc with
  | nil => intro _; rfl
  | cons p rest ih =>
    intro hk
    unfold saInsert
    have hp : ¬(p.1 = k) := by
      intro he
      exact hk (by simp [← he])
    rw [if_neg hp]
    rw [ih (fun hm => hk (List.mem_cons_of_mem _ hm))]
    simp

theorem saInsert_fold_append :
    ∀ (prs : List (String × Node)) (acc : List (String × SArg)),
      (∀ q ∈ prs, q.1 ∉ acc.map Prod.fst) → (prs.map Prod.fst).Nodup →
      prs.foldl (fun a q => saInsert a q.1 (.one q.2)) acc =
        acc ++ prs.map fun q => (q.1, SArg.one q.2) := by
  intro prs
  induction prs with
  | nil => intro acc _ _; simp
  | cons q rest ih =>
    intro acc hq hnd
    have hnd2 : (q.1 :: rest.map Prod.fst).Nodup := by simpa using hnd
    simp only [List.foldl_cons]
    rw [saInsert_append q.1 (.one q.2) acc (hq q (List.mem_cons_self _ _))]
    rw [ih (acc ++ [(q.1, SArg.one q.2)]) ?_ (List.Nodup.of_cons hnd2)]
    · simp
    · intro w hw hmem
      rw [List.map_append] at hmem
      rcases List.mem_append.mp hmem with hmm | hmm
      · exact hq w (List.mem_cons_of_mem _ hw) hmm
      · simp at hmm
        exact (List.nodup_cons.mp hnd2).1 (hmm ▸ List.mem_map_of_mem Prod.fst hw)

/-- The `s_args` contents a successful build produces, entry by entry in
callargs order: the variadic tuple of nodes, the expanded keyword bag, or
one named node. -/
def expectedSArgs (sp : ArgSpec) (sv : List (PyId × Node))
    (ca : List (String × BoundVal)) : List (String × SArg) :=
  ca.flatMap fun p =>
    if sp.varargs = some p.1 then
      [(p.1, .tup ((asTupleB p.2).map fun v => (svLookup sv v.pyId).getD (.constN 0)))]
    else if sp.keywords = some p.1 then
      (asDictB p.2).map fun q => (q.1, .one ((svLookup sv q.2.pyId).getD (.constN 0)))
    else
      [(p.1, .one ((svLookup sv (asSingleB p.2).pyId).getD (.constN 0)))]

theorem expectedSArgs_cons (sp : ArgSpec) (sv : List (PyId × Node))
    (p : String × BoundVal) (rest : List (String × BoundVal)) :
    expectedSArgs sp sv (p :: rest) =
      expectedSArgs sp sv [p] ++ expectedSArgs sp sv rest := by
  simp [expectedSArgs]

theorem boundValsList_cons (p : String × BoundVal) (rest : List (String × BoundVal)) :
    boundValsList (p :: rest) =
      (match p.2 with
       | .single v => [v]
       | .tupleB vs => vs
       | .dictB kvs => kvs.map Prod.snd) ++ boundValsList rest := by
  simp [boundValsList]

theorem buildSArgs_ok_explicit (sp : ArgSpec) (sv : List (PyId × Node)) :
    ∀ (ca : List (String × BoundVal)) (acc : List (String × SArg)),
      (∀ v ∈ boundValsList ca, (svLookup sv v.pyId).isSome = true) →
      (∀ p ∈ ca, sp.varargs ≠ some p.1 → sp.keywords ≠ some p.1 →
        ∃ v, p.2 = BoundVal.single v) →
      ((acc.map Prod.fst) ++ (expectedSArgs sp sv ca).map Prod.fst).Nodup →
      buildSArgs sp sv acc ca = (acc ++ expectedSArgs sp sv ca, none) := by
  intro ca
  induction ca with
  | nil => intro acc _ _ _; simp [buildSArgs, expectedSArgs]
  | cons p rest ih =>
    rcases p with ⟨name, bv⟩
    intro acc hlook hplain hnd
    rw [expectedSArgs_cons] at hnd ⊢
    rw [List.map_append, ← List.append_assoc] at hnd
    have hlookRest : ∀ v ∈ boundValsList rest, (svLookup sv v.pyId).isSome = true := by
      intro v hv
      apply hlook
      rw [boundValsList_cons]
      exact List.mem_append_right _ hv
    have hplainRest : ∀ p ∈ rest, sp.varargs ≠ some p.1 → sp.keywords ≠ some p.1 →
        ∃ v, p.2 = BoundVal.single v :=
      fun q hq => hplain q (List.mem_cons_of_mem _ hq)
    unfold buildSArgs
    by_cases h1 : sp.varargs = some name
    · rw [if_pos h1]
      have hvs : ∀ v ∈ asTupleB bv, (svLookup sv v.pyId).isSome = true := by
        intro v hv
        apply hlook
        rw [boundValsList_cons]
        apply List.mem_append_left
        cases bv with
        | single w => simpa [asTupleB] using hv
        | tupleB ws => simpa [asTupleB] using hv
        | dictB kvs => simp [asTupleB] at hv
      rw [collectVar_ok_explicit sv name (asTupleB bv) 0 hvs]
      simp only []
      have hone : expectedSArgs sp sv [(name, bv)] =
          [(name, .tup ((asTupleB bv).map fun v => (svLookup sv v.pyId).getD (.constN 0)))] := by
        simp [expectedSArgs, h1]
      rw [hone] at hnd
      have hnin : name ∉ acc.map Prod.fst := by
        intro hm
        have h3 := (List.nodup_append.mp hnd).1
        rcases List.nodup_append.mp h3 with ⟨-, -, hdisj⟩
        exact hdisj hm (by simp)
      rw [saInsert_append _ _ acc hnin]
      have hrec := ih
        (acc ++ [(name, .tup ((asTupleB bv).map fun v => (svLookup sv v.pyId).getD (.constN 0)))])
        hlookRest hplainRest (by rw [List.map_append]; simpa using hnd)
      rw [hrec, hone]
      simp
    · rw [if_neg h1]
      by_cases h2 : sp.keywords = some name
      · rw [if_pos h2]
        have hvs : ∀ q ∈ asDictB bv, (svLookup sv q.2.pyId).isSome = true := by
          intro q hq
          apply hlook
          rw [boundValsList_cons]
          apply List.mem_append_left
          cases bv with
          | single w => simp [asDictB] at hq
          | tupleB ws => simp [asDictB] at hq
          | dictB kvs =>
            simp only [asDictB] at hq
            exact List.mem_map_of_mem Prod.snd hq
        obtain ⟨prs, hcoll, hc1, hc2⟩ := collectKw_ok_explicit sv (asDictB bv) hvs
        rw [hcoll]
        simp only []
        have hone : expectedSArgs sp sv [(name, bv)] =
            (asDictB bv).map fun q => (q.1, .one ((svLookup sv q.2.pyId).getD (.constN 0))) := by
          simp [expectedSArgs, h1, h2]
        have hkeys : prs.map Prod.fst =
            (expectedSArgs sp sv [(name, bv)]).map Prod.fst := by
          rw [hc2, hone]
          rw [map_fst_keyed
            (fun q : String × PyVal => SArg.one ((svLookup sv q.2.pyId).getD (.constN 0)))]
        have h3 := (List.nodup_append.mp hnd).1
        rcases List.nodup_append.mp h3 with ⟨hA, hB, hdisj⟩
        rw [saInsert_fold_append prs acc ?_ ?_]
        · rw [hc1, ← hone]
          have hrec := ih (acc ++ expectedSArgs sp sv [(name, bv)]) hlookRest hplainRest
            (by rw [List.map_append]; simpa using hnd)
          rw [hrec]
          simp
        · intro q hq hm
          exact hdisj hm (hkeys ▸ List.mem_map_of_mem Prod.fst hq)
        · rw [hkeys]
          exact hB
      · rw [if_neg h2]
        obtain ⟨v, rfl⟩ := hplain (name, bv) (List.mem_cons_self _ _) h1 h2
        have hv : (svLookup sv v.pyId).isSome = true := by
          apply hlook
          rw [boundValsList_cons]
          apply List.mem_append_left
          simp
        obtain ⟨nd, hnd2⟩ := Option.isSome_iff_exists.mp hv
        simp only [asSingleB]
        rw [hnd2]
        simp only []
        have hone : expectedSArgs sp sv [(name, BoundVal.single v)] =
            [(name, .one ((svLookup sv v.pyId).getD (.constN 0)))] := by
          simp [expectedSArgs, h1, h2, asSingleB]
        rw [hone] at hnd
        have hnin : name ∉ acc.map Prod.fst := by
          intro hm
          have h3 := (List.nodup_append.mp hnd).1
          rcases List.nodup_append.mp h3 with ⟨-, -, hdisj⟩
          exact hdisj hm (by simp)
        rw [saInsert_append _ _ acc hnin]
        have hnode : SArg.one nd = SArg.one ((svLookup sv v.pyId).getD (.constN 0)) := by
          rw [hnd2]
          rfl
        rw [hnode]
        have hrec := ih (acc ++ [(name, .one ((svLookup sv v.pyId).getD (.constN 0)))])
          hlookRest hplainRest (by rw [List.map_append]; simpa using hnd)
        rw [hrec, hone]
        simp

theorem buildSResults_ok_of_lookups (sv : List (PyId × Node)) :
    ∀ (rs : List PyVal) (acc : List (PyId × Node)) (i : Nat),
      (∀ r ∈ rs, (svLookup sv r.pyId).isSome = true) →
      (buildSResults sv acc i rs).2 = none := by
  intro rs
  induction rs with
  | nil => intro acc i _; rfl
  | cons r rest ih =>
    intro acc i hl
    obtain ⟨nd, hnd⟩ := Option.isSome_iff_exists.mp (hl r (List.mem_cons_self _ _))
    unfold buildSResults
    rw [hnd]
    exact ih _ _ fun w hw => hl w (List.mem_cons_of_mem _ hw)

theorem expectedSArgs_append (sp : ArgSpec) (sv : List (PyId × Node))
    (l1 l2 : List (String × BoundVal)) :
    expectedSArgs sp sv (l1 ++ l2) =
      expectedSArgs sp sv l1 ++ expectedSArgs sp sv l2 := by
  simp [expectedSArgs]

theorem expectedSArgs_keys_plain (sp : ArgSpec) (sv : List (PyId × Node)) :
    ∀ (l : List (String × BoundVal)),
      (∀ p ∈ l, sp.varargs ≠ some p.1 ∧ sp.keywords ≠ some p.1) →
      (expectedSArgs sp sv l).map Prod.fst = l.map Prod.fst := by
  intro l
  induction l with
  | nil => intro _; rfl
  | cons p rest ih =>
    intro hp
    obtain ⟨h1, h2⟩ := hp p (List.mem_cons_self _ _)
    rw [expectedSArgs_cons, List.map_append]
    rw [ih fun q hq => hp q (List.mem_cons_of_mem _ hq)]
    have hone : expectedSArgs sp sv [p] =
        [(p.1, .one ((svLookup sv (asSingleB p.2).pyId).getD (.constN 0)))] := by
      simp [expectedSArgs, h1, h2]
    rw [hone]
    rfl

/-- The identity map of the single instrumented execution a trace
performs. -/
def ctxSvars (pf : PyFn) (cargs : List PyVal) (ckwargs : List (String × PyVal))
    (f1 : Nat) : List (PyId × Node) :=
  (contextCall pf cargs ckwargs f1).2.1

/-- The tuple-normalised returned values of that execution. -/
def ctxResults (pf : PyFn) (cargs : List PyVal) (ckwargs : List (String × PyVal))
    (f1 : Nat) : List PyVal :=
  normResults (contextCall pf cargs ckwargs f1).1

theorem orderedcallargs_plain (sp : ArgSpec) (cargs : List PyVal)
    (ckwargs : List (String × PyVal)) :
    ∀ p ∈ orderedcallargs sp cargs ckwargs,
      sp.varargs ≠ some p.1 → sp.keywords ≠ some p.1 → ∃ v, p.2 = BoundVal.single v := by
  intro p hp hv hk
  unfold orderedcallargs at hp
  rcases List.mem_append.mp hp with hm | hm
  · rcases List.mem_append.mp hm with hm1 | hm1
    · obtain ⟨q, -, hq⟩ := List.mem_map.mp hm1
      exact ⟨_, (congrArg Prod.snd hq).symm⟩
    · cases hvn : sp.varargs with
      | none => rw [hvn] at hm1; simp at hm1
      | some vn =>
        rw [hvn] at hm1
        simp at hm1
        exfalso
        apply hv
        rw [hvn, hm1]
  · cases hkn : sp.keywords with
    | none => rw [hkn] at hm; simp at hm
    | some kn =>
      rw [hkn] at hm
      simp at hm
      exfalso
      apply hk
      rw [hkn, hm]

/-- The names the keyword bag contributes to `s_args`: the extra keyword
names when the function declares a keyword-bag parameter, nothing
otherwise. -/
def bagKeys (sp : ArgSpec) (ckwargs : List (String × PyVal)) : List String :=
  match sp.keywords with
  | some _ => (ckwargs.filter fun q => !sp.args.contains q.1).map Prod.fst
  | none => []

theorem expectedSArgs_keys_oca (sp : ArgSpec) (sv : List (PyId × Node))
    (cargs : List PyVal) (ckwargs : List (String × PyVal))
    (hargs : ∀ n ∈ sp.args, sp.varargs ≠ some n ∧ sp.keywords ≠ some n)
    (hvk : ∀ kn, sp.keywords = some kn → sp.varargs ≠ some kn) :
    (expectedSArgs sp sv (orderedcallargs sp cargs ckwargs)).map Prod.fst =
      sp.args ++ sp.varargs.toList ++ bagKeys sp ckwargs := by
  unfold orderedcallargs
  rw [expectedSArgs_append, expectedSArgs_append, List.map_append, List.map_append]
  have hdecl : (expectedSArgs sp sv
      (sp.args.enum.map fun p => (p.2, BoundVal.single (bindDeclared sp cargs ckwargs p.1 p.2)))).map Prod.fst
      = sp.args := by
    rw [expectedSArgs_keys_plain sp sv _ ?_]
    · rw [List.map_map]
      have : (Prod.fst ∘ fun p : Nat × String =>
          (p.2, BoundVal.single (bindDeclared sp cargs ckwargs p.1 p.2))) =
          (Prod.snd : Nat × String → String) := by
        funext q
        rfl
      rw [this, List.enum_map_snd]
    · intro p hp
      obtain ⟨q, hq1, hq2⟩ := List.mem_map.mp hp
      have : p.1 = q.2 := by rw [← hq2]
      rw [this]
      exact hargs q.2 (by rw [← List.enum_map_snd sp.args]; exact List.mem_map_of_mem Prod.snd hq1)
  rw [hdecl]
  congr 1
  · congr 1
    cases hvn : sp.varargs with
    | none => rfl
    | some vn =>
      have : expectedSArgs sp sv [(vn, BoundVal.tupleB (cargs.drop sp.args.length))] =
          [(vn, .tup (((asTupleB (BoundVal.tupleB (cargs.drop sp.args.length)))).map
            fun v => (svLookup sv v.pyId).getD (.constN 0)))] := by
        simp [expectedSArgs, hvn]
      rw [this]
      rfl
  · unfold bagKeys
    cases hkn : sp.keywords with
    | none => rfl
    | some kn =>
      have h1 : sp.varargs ≠ some kn := hvk kn hkn
      have : expectedSArgs sp sv [(kn, BoundVal.dictB (ckwargs.filter fun q => !sp.args.contains q.1))] =
          (ckwargs.filter fun q => !sp.args.contains q.1).map
            fun q => (q.1, .one ((svLookup sv q.2.pyId).getD (.constN 0))) := by
        simp [expectedSArgs, h1, hkn, asDictB]
      rw [this]
      rw [map_fst_keyed
        (fun q : String × PyVal => SArg.one ((svLookup sv q.2.pyId).getD (.constN 0)))]

/-- **C5** (corrected, amended as follows): for a trace in which every
bound argument value and every returned value is correlated to a graph
node, the trace succeeds, `s_args` holds exactly one entry per declared
parameter — in declaration order — plus the variadic-tuple entry and one
entry per supplied extra keyword, and `s_results` holds exactly one entry
per **distinct** returned value identity: its keys are duplicate-free and
are exactly the identities of the returned values, so returned values
repeating one identity collapse into a single entry. -/
theorem claim_C5_theorem (pf : PyFn) (st : SymbolicState) (args : List PyVal)
    (kwargs : List (String × PyVal)) (cargs : List PyVal)
    (ckwargs : List (String × PyVal)) (f1 : Nat)
    (hchk : runChecks pf.argspec args kwargs st.fresh = .ok (cargs, ckwargs, f1))
    (hargs : ∀ n ∈ pf.argspec.args,
      pf.argspec.varargs ≠ some n ∧ pf.argspec.keywords ≠ some n)
    (hvk : ∀ kn, pf.argspec.keywords = some kn → pf.argspec.varargs ≠ some kn)
    (hnd : (pf.argspec.args ++ pf.argspec.varargs.toList ++
      bagKeys pf.argspec ckwargs).Nodup)
    (hlook : ∀ v ∈ boundValsList (orderedcallargs pf.argspec cargs ckwargs),
      (svLookup (ctxSvars pf cargs ckwargs f1) v.pyId).isSome = true)
    (hres : ∀ r ∈ ctxResults pf cargs ckwargs f1,
      (svLookup (ctxSvars pf cargs ckwargs f1) r.pyId).isSome = true) :
    ∃ st', trace pf st args kwargs = .ok st' ∧
      st'.s_args.map Prod.fst =
        pf.argspec.args ++ pf.argspec.varargs.toList ++ bagKeys pf.argspec ckwargs ∧
      (st'.s_results.map Prod.fst).Nodup ∧
      (∀ k, k ∈ st'.s_results.map Prod.fst ↔
        k ∈ (ctxResults pf cargs ckwargs f1).map PyVal.pyId) := by
  have hkeyseq := expectedSArgs_keys_oca pf.argspec (ctxSvars pf cargs ckwargs f1)
    cargs ckwargs hargs hvk
  have hb := buildSArgs_ok_explicit pf.argspec (ctxSvars pf cargs ckwargs f1)
    (orderedcallargs pf.argspec cargs ckwargs) [] hlook
    (orderedcallargs_plain pf.argspec cargs ckwargs)
    (by simpa [hkeyseq] using hnd)
  have hr2 := buildSResults_ok_of_lookups (ctxSvars pf cargs ckwargs f1)
    (ctxResults pf cargs ckwargs f1) [] 0 hres
  obtain ⟨hrn, hrm⟩ := buildSResults_ok_keys (ctxSvars pf cargs ckwargs f1)
    (ctxResults pf cargs ckwargs f1) [] 0 hr2
  unfold trace
  rw [hchk]
  unfold traceCore
  simp only []
  unfold ctxSvars at hb
  rw [hb]
  simp only []
  unfold ctxResults ctxSvars at hr2
  rw [hr2]
  refine ⟨_, rfl, ?_, ?_, ?_⟩
  · rw [List.nil_append]
    exact hkeyseq
  · unfold ctxSvars ctxResults at hrn
    exact hrn (by simp)
  · intro k
    unfold ctxSvars ctxResults at hrm
    have h5 := hrm k
    simp only [List.map_nil, List.not_mem_nil, false_or] at h5
    exact h5

/-- `f(a, **kw): return a` — a declared parameter plus a keyword bag. -/
def kwFn : PyFn :=
  { argspec := { args := ["a"], varargs := none, keywords := some "kw", defaults := [] },
    body := [.ref (.pos "a")], retTuple := false }

theorem claim_C5_witness :
    ∃ st', trace kwFn initState [.intV 0 1000] [("b", .intV 1 999)] = .ok st' ∧
      st'.s_args.map Prod.fst =
        kwFn.argspec.args ++ kwFn.argspec.varargs.toList ++
          bagKeys kwFn.argspec [("b", PyVal.intV 1 999)] ∧
      (st'.s_results.map Prod.fst).Nodup ∧
      (∀ k, k ∈ st'.s_results.map Prod.fst ↔
        k ∈ (ctxResults kwFn [.intV 0 1000] [("b", .intV 1 999)] 100).map PyVal.pyId) :=
  claim_C5_theorem kwFn initState [.intV 0 1000] [("b", .intV 1 999)]
    [.intV 0 1000] [("b", .intV 1 999)] 100 rfl (by decide) (by decide) (by decide)
    (by decide) (by decide)

/-! ## Small-integer boxing: fresh distinct addresses -/

theorem check_fresh_mono (f : Nat) (n : String) (v : PyVal) (v2 : PyVal) (f2 : Nat)
    (h : check f n v = .ok (v2, f2)) : f ≤ f2 := by
  cases v with
  | intV a m =>
    simp only [check] at h
    split at h <;> simp at h <;> omega
  | npint a m => simp [check] at h; omega
  | strV a m => simp [check] at h; omega
  | objV a => simp [check] at h; omega
  | listV a l => simp [check] at h
  | tupleV a l => simp [check] at h
  | dictV a l => simp [check] at h

theorem checkList_fresh_mono :
    ∀ (ps : List (String × PyVal)) (f : Nat) (vs : List PyVal) (f2 : Nat),
      checkList f ps = .ok (vs, f2) → f ≤ f2 := by
  intro ps
  induction ps with
  | nil => intro f vs f2 h; simp [checkList] at h; omega
  | cons a rest ih =>
    rcases a with ⟨n1, v1⟩
    intro f vs f2 h
    unfold checkList at h
    cases hc : check f n1 v1 with
    | error e => rw [hc] at h; simp at h
    | ok t =>
      rcases t with ⟨v2, fb⟩
      rw [hc] at h
      simp only [] at h
      cases hr : checkList fb rest with
      | error e => rw [hr] at h; simp at h
      | ok t2 =>
        rcases t2 with ⟨vs2, f3⟩
        rw [hr] at h
        simp at h
        have h1 := check_fresh_mono f n1 v1 v2 fb hc
        have h2 := ih fb vs2 f3 hr
        omega

theorem collectVar_first_failure (sv : List (PyId × Node)) (name : String) :
    ∀ (pre : List PyVal) (i0 : Nat) (v : PyVal) (post : List PyVal),
      (∀ u ∈ pre, (svLookup sv u.pyId).isSome = true) →
      svLookup sv v.pyId = none →
      (collectVar sv name i0 (pre ++ v :: post)).2 =
        some (.untraceableVarItem (i0 + pre.length) name) := by
  intro pre
  induction pre with
  | nil =>
    intro i0 v post hpre hv
    simp [collectVar, hv]
  | cons u rest ih =>
    intro i0 v post hpre hv
    have hu := hpre u (List.mem_cons_self _ _)
    obtain ⟨nd, hnd⟩ := Option.isSome_iff_exists.mp hu
    show (collectVar sv name i0 ((u :: rest) ++ v :: post)).2 = _
    unfold collectVar
    rw [List.cons_append]
    simp only []
    rw [hnd]
    simp only []
    rw [ih (i0 + 1) v post (fun w hw => hpre w (List.mem_cons_of_mem _ hw)) hv]
    have : i0 + 1 + rest.length = i0 + (u :: rest).length := by
      simp [List.length_cons]
      omega
    rw [this]

theorem buildSResults_first_failure (sv : List (PyId × Node)) :
    ∀ (pre : List PyVal) (acc : List (PyId × Node)) (i0 : Nat) (r : PyVal)
      (post : List PyVal),
      (∀ u ∈ pre, (svLookup sv u.pyId).isSome = true) →
      svLookup sv r.pyId = none →
      (buildSResults sv acc i0 (pre ++ r :: post)).2 =
        some (.untraceableResult (i0 + pre.length + 1)) := by
  intro pre
  induction pre with
  | nil =>
    intro acc i0 r post hpre hv
    simp [buildSResults, hv]
  | cons u rest ih =>
    intro acc i0 r post hpre hv
    have hu := hpre u (List.mem_cons_self _ _)
    obtain ⟨nd, hnd⟩ := Option.isSome_iff_exists.mp hu
    show (buildSResults sv acc i0 ((u :: rest) ++ r :: post)).2 = _
    unfold buildSResults
    rw [List.cons_append]
    simp only []
    rw [hnd]
    simp only []
    rw [ih (srInsert acc u.pyId nd) (i0 + 1) r post
      (fun w hw => hpre w (List.mem_cons_of_mem _ hw)) hv]
    have : i0 + 1 + rest.length = i0 + (u :: rest).length := by
      simp [List.length_cons]
      omega
    rw [this]

/-- **C7** (corrected, amended as follows): when a bound value's identity
is missing from the identity map, an untraceable error is raised naming
the offending parameter — and, for an element of the variadic tuple, its
**0-based** index (the raw `enumerate` index is interpolated into the
message) — while a missing result's error prints the **1-based** result
index (`i + 1`, the message even says `indexed from 1`).  Stated on the
three error sites of `Symbolic.trace` (started at index 0 and the empty
accumulator, exactly as `trace` invokes them): the first untrackable
variadic element at 0-based position `p` is reported as item `p`; an
ordinary declared parameter is reported by name; the first untrackable
result at 0-based position `p` is reported as result `p + 1`. -/
theorem claim_C7_theorem :
    (∀ (sv : List (PyId × Node)) (name : String) (pre : List PyVal) (v : PyVal)
       (post : List PyVal),
      (∀ u ∈ pre, (svLookup sv u.pyId).isSome = true) →
      svLookup sv v.pyId = none →
      (collectVar sv name 0 (pre ++ v :: post)).2 =
        some (.untraceableVarItem pre.length name)) ∧
    (∀ (sp : ArgSpec) (sv : List (PyId × Node)) (acc : List (String × SArg))
       (name : String) (v : PyVal) (rest : List (String × BoundVal)),
      sp.varargs ≠ some name → sp.keywords ≠ some name →
      svLookup sv v.pyId = none →
      (buildSArgs sp sv acc ((name, .single v) :: rest)).2 =
        some (.untraceableArg name)) ∧
    (∀ (sv : List (PyId × Node)) (pre : List PyVal) (r : PyVal) (post : List PyVal),
      (∀ u ∈ pre, (svLookup sv u.pyId).isSome = true) →
      svLookup sv r.pyId = none →
      (buildSResults sv [] 0 (pre ++ r :: post)).2 =
        some (.untraceableResult (pre.length + 1))) := by
  refine ⟨?_, ?_, ?_⟩
  · intro sv name pre v post hpre hv
    have := collectVar_first_failure sv name pre 0 v post hpre hv
    simpa using this
  · intro sp sv acc name v rest hvn hkn hv
    unfold buildSArgs
    rw [if_neg hvn, if_neg hkn]
    simp only [asSingleB]
    rw [hv]
  · intro sv pre r post hpre hv
    have := buildSResults_first_failure sv pre [] 0 r post hpre hv
    simpa using this

/-- An argspec with a single declared parameter and nothing else. -/
def xOnlySpec : ArgSpec :=
  { args := ["x"], varargs := none, keywords := none, defaults := [] }

theorem claim_C7_witness :
    ((collectVar sqTraceSv "va" 0 ([.intV 0 1000] ++ [.strV 5 "s"])).2 =
      some (.untraceableVarItem 1 "va")) ∧
    ((buildSArgs xOnlySpec sqTraceSv [] [("x", .single (.strV 5 "s"))]).2 =
      some (.untraceableArg "x")) ∧
    ((buildSResults sqTraceSv [] 0 ([.intV 0 1000] ++ [.strV 5 "s"])).2 =
      some (.untraceableResult 2)) := by
  refine ⟨?_, ?_, ?_⟩
  · have h := claim_C7_theorem.1 sqTraceSv "va" [.intV 0 1000] (.strV 5 "s") []
      (by decide) (by decide)
    simpa using h
  · exact claim_C7_theorem.2.1 xOnlySpec sqTraceSv [] "x" (.strV 5 "s") []
      (by decide) (by decide) (by decide)
  · have h := claim_C7_theorem.2.2 sqTraceSv [.intV 0 1000] (.strV 5 "s") []
      (by decide) (by decide)
    simpa using h

/-! ## C2: the compiled wrapper refines the direct call -/

end PyAutodiff
